import Mathlib

/-!
Shallow embedding of the balance-aggregation core of the crypto wallet
tracker (Go source: `wallet_tracker.go`).  The embedded functions keep the
source's names: `tokenTransaction` with its field aliases, the resolvers
`displayName` / `displaySymbol` / `decimals` / `quantity`, the aggregation
`summarizeTokenBalances` over `tokenAggregate`, and the decimal renderer
`formatTokenBalance`.  `math/big` integers are modelled as `Int`, Go maps
as insertion-ordered association lists (the Go map's iteration order is
unspecified; the final list is re-sorted in both cases).
-/

namespace WalletTracker

/-- Go `unicode.IsSpace`: the Unicode White_Space code points
(as used by `strings.TrimSpace`). -/
def isSpace (c : Char) : Bool :=
  (9 ≤ c.toNat && c.toNat ≤ 13) || c.toNat == 32 || c.toNat == 0x85 ||
  c.toNat == 0xA0 || c.toNat == 0x1680 || (0x2000 ≤ c.toNat && c.toNat ≤ 0x200A) ||
  c.toNat == 0x2028 || c.toNat == 0x2029 || c.toNat == 0x202F ||
  c.toNat == 0x205F || c.toNat == 0x3000

/-- Go `strings.TrimSpace`: drop leading and trailing whitespace. -/
def trimSpace (s : String) : String :=
  (((s.toList.dropWhile isSpace).reverse.dropWhile isSpace).reverse).asString

/-- Go `strings.ToLower`, character by character (`Char.toLower` lowers the
ASCII range, which covers the hex addresses and names compared here). -/
def toLower (s : String) : String :=
  (s.toList.map Char.toLower).asString

/-- Go `firstNonEmpty` (source lines 326-333): first value whose
`strings.TrimSpace` is non-empty (the value itself is returned untrimmed),
else the empty string. -/
def firstNonEmpty (values : List String) : String :=
  match values.find? (fun v => !(trimSpace v == "")) with
  | some v => v
  | none => ""

/-- Go `math/big` `new(big.Int).SetString(s, 10)`: optional `+`/`-` sign
followed by a non-empty run of decimal digits; anything else fails
(underscores are only allowed for base 0, and base 10 is fixed here). -/
def bigIntSetString10 (s : String) : Option Int :=
  let signAndDigits : Bool × List Char :=
    match s.toList with
    | '+' :: rest => (false, rest)
    | '-' :: rest => (true, rest)
    | rest => (false, rest)
  let neg := signAndDigits.1
  let ds := signAndDigits.2
  if ds = [] then none
  else if ds.all Char.isDigit then
    let mag : Nat := ds.foldl (fun acc c => acc * 10 + (c.toNat - '0'.toNat)) 0
    some (if neg then -(mag : Int) else (mag : Int))
  else none

/-- Go `strconv.Atoi` = `ParseInt(s, 10, 0)`: base-10 integer with optional
sign, failing on syntax errors and on values outside the 64-bit int range. -/
def atoi (s : String) : Option Int :=
  match bigIntSetString10 s with
  | none => none
  | some v => if -(2 ^ 63) ≤ v ∧ v ≤ 2 ^ 63 - 1 then some v else none

/-- Go struct `tokenTransaction` (source lines 168-180): a raw transfer
record with primary and alternate-cased field aliases. -/
structure tokenTransaction where
  ContractAddress  : String
  TokenName        : String
  TokenNameAlt     : String
  TokenSymbol      : String
  TokenSymbolAlt   : String
  TokenDecimal     : String
  TokenDecimalAlt  : String
  TokenQuantity    : String
  TokenQuantityAlt : String
  From             : String
  To               : String
deriving DecidableEq

/-- Go `tokenTransaction.displaySymbol` (source lines 195-203). -/
def tokenTransaction.displaySymbol (t : tokenTransaction) : String :=
  if t.TokenSymbol ≠ "" then t.TokenSymbol
  else if t.TokenSymbolAlt ≠ "" then t.TokenSymbolAlt
  else ""

/-- Go `tokenTransaction.displayName` (source lines 182-193). -/
def tokenTransaction.displayName (t : tokenTransaction) : String :=
  if t.TokenName ≠ "" then t.TokenName
  else if t.TokenNameAlt ≠ "" then t.TokenNameAlt
  else if t.displaySymbol ≠ "" then t.displaySymbol
  else t.ContractAddress

/-- Go `tokenTransaction.decimals` (source lines 205-212): parse the first
non-empty decimal alias with `strconv.Atoi`; on absence or parse failure
default to 0. -/
def tokenTransaction.decimals (t : tokenTransaction) : Int :=
  let raw := firstNonEmpty [t.TokenDecimal, t.TokenDecimalAlt]
  if raw ≠ "" then
    match atoi raw with
    | some parsed => parsed
    | none => 0
  else 0

/-- Go `tokenTransaction.quantity` (source lines 214-225): parse the first
non-empty quantity alias as a base-10 big integer; `none` means "no usable
quantity" (the record must be skipped). -/
def tokenTransaction.quantity (t : tokenTransaction) : Option Int :=
  let raw := firstNonEmpty [t.TokenQuantity, t.TokenQuantityAlt]
  if raw = "" then none
  else bigIntSetString10 raw

/-- Go struct `tokenAggregate` (source lines 227-233). -/
structure tokenAggregate where
  address  : String
  name     : String
  symbol   : String
  decimals : Int
  balance  : Int
deriving DecidableEq

/-- Go struct `TokenBalance` (source lines 52-57): one output entry, with
the balance already rendered as a decimal string. -/
structure TokenBalance where
  Address : String
  Name    : String
  Symbol  : String
  Balance : String
deriving DecidableEq

/-- Go `strings.TrimRight(s, "0")` on a char list. -/
def trimRightZeros (l : List Char) : List Char :=
  (l.reverse.dropWhile (fun c => c == '0')).reverse

/-- Decimals-positive branch of Go `formatTokenBalance`
(source lines 309-323), over the digit characters of the magnitude. -/
def formatFixed (str0 : List Char) (d : Nat) : String :=
  let str := if str0.length ≤ d then List.replicate (d - str0.length + 1) '0' ++ str0 else str0
  let split := str.length - d
  let intPart0 := str.take split
  let intPart := if intPart0 = [] then ['0'] else intPart0
  let fracPart := trimRightZeros (str.drop split)
  if fracPart = [] then intPart.asString
  else intPart.asString ++ "." ++ fracPart.asString

/-- Go `formatTokenBalance` (source lines 293-324): `nil` renders as "0";
the sign is split off and the magnitude rendered, as-is for
`decimals <= 0` and as a fixed-point string otherwise. -/
def formatTokenBalance (balance : Option Int) (decimals : Int) : String :=
  match balance with
  | none => "0"
  | some b =>
    let sign := if b < 0 then "-" else ""
    let value : Nat := b.natAbs
    if decimals ≤ 0 then sign ++ Nat.repr value
    else sign ++ formatFixed (Nat.repr value).toList decimals.toNat

/-- Fresh aggregate for the first record seen for a contract
(source lines 252-258): metadata from that record, balance zero. -/
def newAggregate (tx : tokenTransaction) : tokenAggregate :=
  { address := tx.ContractAddress, name := tx.displayName, symbol := tx.displaySymbol,
    decimals := tx.decimals, balance := 0 }

/-- Balance switch of the aggregation loop (source lines 262-270):
`wallet` is the already-lowercased target; the `to` match is checked first
and the branches are mutually exclusive. -/
def applyDirection (wallet : String) (tx : tokenTransaction) (qty : Int)
    (agg : tokenAggregate) : tokenAggregate :=
  if toLower tx.To = wallet then { agg with balance := agg.balance + qty }
  else if toLower tx.From = wallet then { agg with balance := agg.balance - qty }
  else agg

/-- Map lookup-or-create plus balance update for one record
(source lines 250-270), on the insertion-ordered association list that
models the Go map `aggregates`. -/
def updateAggregates (wallet : String) (tx : tokenTransaction) (qty : Int) :
    List tokenAggregate → List tokenAggregate
  | [] => [applyDirection wallet tx qty (newAggregate tx)]
  | a :: rest =>
    if a.address = tx.ContractAddress then applyDirection wallet tx qty a :: rest
    else a :: updateAggregates wallet tx qty rest

/-- One iteration of the aggregation loop (source lines 243-271): records
without a usable quantity are skipped. -/
def applyTx (wallet : String) (aggs : List tokenAggregate) (tx : tokenTransaction) :
    List tokenAggregate :=
  match tx.quantity with
  | none => aggs
  | some qty => updateAggregates wallet tx qty aggs

/-- The whole aggregation loop, folding over the records in input order. -/
def processTxs (wallet : String) (aggs : List tokenAggregate)
    (txs : List tokenTransaction) : List tokenAggregate :=
  txs.foldl (applyTx wallet) aggs

/-- Lexicographic strict comparison of char lists by code point; on ASCII
data this is exactly Go's byte-lexicographic `<` on strings. -/
def charListLt : List Char → List Char → Bool
  | _, [] => false
  | [], _ :: _ => true
  | a :: as, b :: bs =>
    if a.toNat < b.toNat then true
    else if b.toNat < a.toNat then false
    else charListLt as bs

/-- Go string comparison `a < b`. -/
def strLt (a b : String) : Bool :=
  charListLt a.toList b.toList

/-- Go sort comparator (source line 287): strict less-than on the
lowercased display names. -/
def nameLess (a b : TokenBalance) : Bool :=
  strLt (toLower a.Name) (toLower b.Name)

/-- Order in which a sort driven by the `less` comparator `nameLess` lays
out its output: `a` may precede `b` exactly when `less b a` is false. -/
def byName (a b : TokenBalance) : Prop :=
  nameLess b a = false

instance : DecidableRel byName := fun a b => by
  unfold byName; infer_instance

/-- Go `summarizeTokenBalances` (source lines 235-291): skip unusable
records, aggregate per contract with first-writer-wins metadata, drop
zero balances, render, and sort by lowercase display name.  The Go map
iteration order is unspecified and `sort.Slice` is unstable; the model
iterates in insertion order and uses a stable merge sort, one of the
behaviors the Go code may exhibit. -/
def summarizeTokenBalances (walletAddress : String) (txs : List tokenTransaction) :
    List TokenBalance :=
  if txs = [] then []
  else
    let wallet := toLower walletAddress
    let aggregates := processTxs wallet [] txs
    let result := (aggregates.filter (fun agg => agg.balance != 0)).map (fun agg =>
      { Address := agg.address, Name := agg.name, Symbol := agg.symbol,
        Balance := formatTokenBalance (some agg.balance) agg.decimals })
    List.insertionSort byName result

/-- Lookup of a contract's aggregate in the accumulator list (observation
helper for the theorems; mirrors the Go map read `aggregates[c]`). -/
def findAgg (aggs : List tokenAggregate) (c : String) : Option tokenAggregate :=
  aggs.find? (fun a => a.address == c)

/-- Running balance recorded for contract `c` (0 when absent, matching the
zero-initialized aggregate). -/
def balanceOf (aggs : List tokenAggregate) (c : String) : Int :=
  match findAgg aggs c with
  | some a => a.balance
  | none => 0

/-- Net effect of a single record on contract `c`'s balance for the
(lowercased) target `wallet`. -/
def txDelta (wallet c : String) (tx : tokenTransaction) : Int :=
  match tx.quantity with
  | none => 0
  | some qty =>
    if tx.ContractAddress = c then
      if toLower tx.To = wallet then qty
      else if toLower tx.From = wallet then -qty
      else 0
    else 0

/-- First record for contract `c` that carries a usable quantity — the one
whose metadata the aggregate keeps. -/
def firstUsable (txs : List tokenTransaction) (c : String) : Option tokenTransaction :=
  txs.find? (fun tx => tx.ContractAddress == c && tx.quantity.isSome)

/-- Metadata view of an aggregate (everything except the balance). -/
def metaOf (agg : tokenAggregate) : String × String × String × Int :=
  (agg.address, agg.name, agg.symbol, agg.decimals)

/-- Specification-side fixed-point renderer, following the words of spec
§4.3 for `decimals > 0`: pad the digit string on the left when it has
fewer digits than `d`, split off `d` fractional digits, default the
integer part to "0" when empty, trim trailing fractional zeros, and omit
the point when the fraction trims away.  Used only to compare against
`formatFixed` (claim C3). -/
def fixedPointSpec (digits : List Char) (d : Nat) : String :=
  let padded := if digits.length < d then List.replicate (d - digits.length) '0' ++ digits else digits
  let intPart0 := padded.take (padded.length - d)
  let intPart := if intPart0 = [] then ['0'] else intPart0
  let frac := trimRightZeros (padded.drop (padded.length - d))
  if frac = [] then intPart.asString
  else intPart.asString ++ "." ++ frac.asString


lemma applyDirection_address (wallet : String) (tx : tokenTransaction) (qty : Int)
    (agg : tokenAggregate) : (applyDirection wallet tx qty agg).address = agg.address := by
  unfold applyDirection; split_ifs <;> rfl

lemma applyDirection_meta (wallet : String) (tx : tokenTransaction) (qty : Int)
    (agg : tokenAggregate) : metaOf (applyDirection wallet tx qty agg) = metaOf agg := by
  unfold applyDirection; split_ifs <;> rfl

lemma applyDirection_name (wallet : String) (tx : tokenTransaction) (qty : Int)
    (agg : tokenAggregate) : (applyDirection wallet tx qty agg).name = agg.name := by
  unfold applyDirection; split_ifs <;> rfl

lemma applyDirection_symbol (wallet : String) (tx : tokenTransaction) (qty : Int)
    (agg : tokenAggregate) : (applyDirection wallet tx qty agg).symbol = agg.symbol := by
  unfold applyDirection; split_ifs <;> rfl

lemma applyDirection_decimals (wallet : String) (tx : tokenTransaction) (qty : Int)
    (agg : tokenAggregate) : (applyDirection wallet tx qty agg).decimals = agg.decimals := by
  unfold applyDirection; split_ifs <;> rfl

lemma applyDirection_balance (wallet : String) (tx : tokenTransaction) (qty : Int)
    (agg : tokenAggregate) :
    (applyDirection wallet tx qty agg).balance =
      agg.balance + (if toLower tx.To = wallet then qty
        else if toLower tx.From = wallet then -qty else 0) := by
  unfold applyDirection; split_ifs <;> simp [Int.sub_eq_add_neg]

lemma aggExt (x y : tokenAggregate) (hm : metaOf x = metaOf y) (hb : x.balance = y.balance) :
    x = y := by
  cases x; cases y
  simp only [metaOf, Prod.mk.injEq] at hm
  simp_all

lemma findAgg_cons (a : tokenAggregate) (rest : List tokenAggregate) (c : String) :
    findAgg (a :: rest) c = if a.address = c then some a else findAgg rest c := by
  by_cases h : a.address = c <;> simp [findAgg, List.find?_cons, h]

lemma findAgg_updateAggregates (wallet : String) (tx : tokenTransaction) (qty : Int)
    (c : String) : ∀ aggs : List tokenAggregate,
    findAgg (updateAggregates wallet tx qty aggs) c =
      if tx.ContractAddress = c then
        some (applyDirection wallet tx qty ((findAgg aggs c).getD (newAggregate tx)))
      else findAgg aggs c
  | [] => by
    by_cases h : tx.ContractAddress = c <;>
      simp [updateAggregates, findAgg, List.find?_cons, applyDirection_address,
        newAggregate, h]
  | a :: rest => by
    by_cases ha : a.address = tx.ContractAddress
    · by_cases hc : tx.ContractAddress = c
      · simp [updateAggregates, ha, findAgg_cons, applyDirection_address, ha.trans hc, hc]
      · have hac : ¬ a.address = c := fun h => hc (ha ▸ h)
        simp [updateAggregates, ha, findAgg_cons, applyDirection_address, hac, hc]
    · by_cases hac : a.address = c
      · have hc : ¬ tx.ContractAddress = c := fun h => ha (hac.trans h.symm)
        have hca : ¬ c = tx.ContractAddress := fun h => hc h.symm
        simp [updateAggregates, ha, findAgg_cons, hac, hc, hca]
      · simp [updateAggregates, ha, findAgg_cons, hac,
          findAgg_updateAggregates wallet tx qty c rest]

lemma findAgg_applyTx (wallet : String) (aggs : List tokenAggregate)
    (tx : tokenTransaction) (c : String) :
    findAgg (applyTx wallet aggs tx) c =
      match tx.quantity with
      | none => findAgg aggs c
      | some qty =>
        if tx.ContractAddress = c then
          some (applyDirection wallet tx qty ((findAgg aggs c).getD (newAggregate tx)))
        else findAgg aggs c := by
  unfold applyTx
  cases tx.quantity <;> simp [findAgg_updateAggregates]

lemma balanceOf_applyTx (wallet : String) (aggs : List tokenAggregate)
    (tx : tokenTransaction) (c : String) :
    balanceOf (applyTx wallet aggs tx) c = balanceOf aggs c + txDelta wallet c tx := by
  unfold balanceOf txDelta
  rw [findAgg_applyTx]
  cases hq : tx.quantity with
  | none => simp
  | some qty =>
    by_cases hc : tx.ContractAddress = c
    · simp only [hc, if_pos rfl]
      cases hfa : findAgg aggs c with
      | none => simp [applyDirection_balance, newAggregate]
      | some a => simp [applyDirection_balance]
    · simp [hc]

lemma firstUsable_cons (tx : tokenTransaction) (txs : List tokenTransaction) (c : String) :
    firstUsable (tx :: txs) c =
      if tx.ContractAddress = c ∧ tx.quantity.isSome then some tx
      else firstUsable txs c := by
  by_cases h1 : tx.ContractAddress = c <;> by_cases h2 : tx.quantity.isSome <;>
    simp [firstUsable, List.find?_cons, h1, h2]

lemma processTxs_cons (wallet : String) (aggs : List tokenAggregate)
    (tx : tokenTransaction) (txs : List tokenTransaction) :
    processTxs wallet aggs (tx :: txs) = processTxs wallet (applyTx wallet aggs tx) txs := rfl

lemma balanceOf_processTxs (wallet : String) :
    ∀ (txs : List tokenTransaction) (aggs : List tokenAggregate) (c : String),
    balanceOf (processTxs wallet aggs txs) c =
      balanceOf aggs c + (txs.map (txDelta wallet c)).sum
  | [], aggs, c => by simp [processTxs]
  | tx :: txs, aggs, c => by
    rw [processTxs_cons, balanceOf_processTxs wallet txs, balanceOf_applyTx]
    simp [add_assoc]

lemma findAgg_processTxs (wallet c : String) :
    ∀ (txs : List tokenTransaction) (aggs : List tokenAggregate),
    findAgg (processTxs wallet aggs txs) c =
      match findAgg aggs c with
      | some a => some { a with balance := a.balance + (txs.map (txDelta wallet c)).sum }
      | none =>
        match firstUsable txs c with
        | none => none
        | some tx0 => some { address := tx0.ContractAddress, name := tx0.displayName,
                             symbol := tx0.displaySymbol, decimals := tx0.decimals,
                             balance := (txs.map (txDelta wallet c)).sum }
  | [], aggs => by
    cases hfa : findAgg aggs c with
    | none => simp [processTxs, firstUsable, hfa]
    | some a => simp [processTxs, firstUsable, hfa]
  | tx :: txs, aggs => by
    rw [processTxs_cons, findAgg_processTxs wallet c txs, findAgg_applyTx, firstUsable_cons]
    cases hq : tx.quantity with
    | none =>
      have hd : txDelta wallet c tx = 0 := by simp [txDelta, hq]
      simp [hq, hd]
    | some qty =>
      by_cases hc : tx.ContractAddress = c
      · have hd : txDelta wallet c tx =
            (if toLower tx.To = wallet then qty
             else if toLower tx.From = wallet then -qty else 0) := by
          simp [txDelta, hq, hc]
        cases hfa : findAgg aggs c with
        | some a =>
          simp only [hq, hc, if_pos rfl, hfa, Option.getD_some, true_and, Option.isSome_some,
            ite_true, List.map_cons, List.sum_cons]
          refine congrArg some (aggExt _ _ ?_ ?_)
          · simp [metaOf, applyDirection_address, applyDirection_name, applyDirection_symbol,
              applyDirection_decimals]
          · simp [applyDirection_balance, hd, add_assoc]
        | none =>
          simp only [hq, hc, if_pos rfl, hfa, Option.getD_none, true_and, Option.isSome_some,
            ite_true, List.map_cons, List.sum_cons]
          refine congrArg some (aggExt _ _ ?_ ?_)
          · simp [metaOf, applyDirection_address, applyDirection_name, applyDirection_symbol,
              applyDirection_decimals, newAggregate, hc]
          · simp [applyDirection_balance, newAggregate, hd]
      · have hd : txDelta wallet c tx = 0 := by simp [txDelta, hq, hc]
        simp [hq, hc, hd]

lemma findAgg_isSome_iff (c : String) : ∀ aggs : List tokenAggregate,
    (findAgg aggs c).isSome ↔ c ∈ aggs.map (fun a => a.address)
  | [] => by simp [findAgg]
  | a :: rest => by
    rw [findAgg_cons]
    by_cases h : a.address = c
    · simp [h]
    · rw [if_neg h]
      simp only [List.map_cons, List.mem_cons]
      rw [findAgg_isSome_iff c rest]
      constructor
      · exact Or.inr
      · rintro (hce | hmem)
        · exact absurd hce.symm h
        · exact hmem

lemma keys_updateAggregates (wallet : String) (tx : tokenTransaction) (qty : Int) :
    ∀ aggs : List tokenAggregate,
    (updateAggregates wallet tx qty aggs).map (fun a => a.address) =
      if (findAgg aggs tx.ContractAddress).isSome then aggs.map (fun a => a.address)
      else aggs.map (fun a => a.address) ++ [tx.ContractAddress]
  | [] => by simp [updateAggregates, findAgg, applyDirection_address, newAggregate]
  | a :: rest => by
    by_cases ha : a.address = tx.ContractAddress
    · simp [updateAggregates, ha, findAgg_cons, applyDirection_address]
    · rw [show (updateAggregates wallet tx qty (a :: rest)) =
          a :: updateAggregates wallet tx qty rest by simp [updateAggregates, ha]]
      rw [findAgg_cons, if_neg ha]
      simp only [List.map_cons, keys_updateAggregates wallet tx qty rest]
      split_ifs <;> simp

lemma keys_nodup_applyTx (wallet : String) (tx : tokenTransaction)
    (aggs : List tokenAggregate)
    (h : (aggs.map (fun a => a.address)).Nodup) :
    ((applyTx wallet aggs tx).map (fun a => a.address)).Nodup := by
  unfold applyTx
  cases hq : tx.quantity with
  | none => exact h
  | some qty =>
    rw [keys_updateAggregates]
    split_ifs with hf
    · exact h
    · have hnot : tx.ContractAddress ∉ aggs.map (fun a => a.address) := by
        intro hmem
        exact hf ((findAgg_isSome_iff _ aggs).mpr hmem)
      simp only [List.nodup_append, List.nodup_cons, List.not_mem_nil, not_false_iff,
        List.nodup_nil, and_true, true_and]
      refine ⟨h, ?_⟩
      intro x hx
      simp only [List.mem_singleton]
      intro hxeq
      exact hnot (hxeq ▸ hx)

lemma keys_nodup_processTxs (wallet : String) :
    ∀ (txs : List tokenTransaction) (aggs : List tokenAggregate),
    (aggs.map (fun a => a.address)).Nodup →
    ((processTxs wallet aggs txs).map (fun a => a.address)).Nodup
  | [], aggs, h => h
  | tx :: txs, aggs, h => by
    rw [processTxs_cons]
    exact keys_nodup_processTxs wallet txs _ (keys_nodup_applyTx wallet tx aggs h)

lemma findAgg_of_mem : ∀ (aggs : List tokenAggregate),
    (aggs.map (fun a => a.address)).Nodup →
    ∀ agg ∈ aggs, findAgg aggs agg.address = some agg
  | [], _, agg, hmem => by simp at hmem
  | a :: rest, hnd, agg, hmem => by
    rw [findAgg_cons]
    rcases List.mem_cons.mp hmem with rfl | hmem'
    · simp
    · rw [List.map_cons, List.nodup_cons] at hnd
      have ha : ¬ a.address = agg.address := by
        intro h
        exact hnd.1 (h ▸ List.mem_map_of_mem (fun x => x.address) hmem')
      rw [if_neg ha]
      exact findAgg_of_mem rest hnd.2 agg hmem'

/-- All-empty record, used as a base for the concrete test fixtures. -/
def emptyTx : tokenTransaction :=
  { ContractAddress := "", TokenName := "", TokenNameAlt := "", TokenSymbol := "",
    TokenSymbolAlt := "", TokenDecimal := "", TokenDecimalAlt := "", TokenQuantity := "",
    TokenQuantityAlt := "", From := "", To := "" }

lemma mem_summarize_decomp (w : String) (txs : List tokenTransaction) (tb : TokenBalance)
    (h : tb ∈ summarizeTokenBalances w txs) :
    ∃ agg ∈ processTxs (toLower w) [] txs, agg.balance ≠ 0 ∧
      tb = { Address := agg.address, Name := agg.name, Symbol := agg.symbol,
             Balance := formatTokenBalance (some agg.balance) agg.decimals } := by
  by_cases htxs : txs = []
  · simp [summarizeTokenBalances, htxs] at h
  · unfold summarizeTokenBalances at h
    rw [if_neg htxs] at h
    simp only at h
    have h2 := (List.perm_insertionSort byName _).mem_iff.mp h
    rcases List.mem_map.mp h2 with ⟨agg, hin, rfl⟩
    rcases List.mem_filter.mp hin with ⟨hmem, hbal⟩
    exact ⟨agg, hmem, by simpa using hbal, rfl⟩

lemma summarize_meta_decomp (w : String) (txs : List tokenTransaction) (tb : TokenBalance)
    (h : tb ∈ summarizeTokenBalances w txs) :
    ∃ tx0, firstUsable txs tb.Address = some tx0 ∧
      tb.Address = tx0.ContractAddress ∧ tb.Name = tx0.displayName ∧
      tb.Symbol = tx0.displaySymbol ∧
      tb.Balance = formatTokenBalance
        (some (balanceOf (processTxs (toLower w) [] txs) tb.Address)) tx0.decimals := by
  rcases mem_summarize_decomp w txs tb h with ⟨agg, hmem, hbal, rfl⟩
  have hnd := keys_nodup_processTxs (toLower w) txs [] (by simp)
  have hfind0 := findAgg_of_mem _ hnd agg hmem
  have hb : balanceOf (processTxs (toLower w) [] txs) agg.address = agg.balance := by
    unfold balanceOf; rw [hfind0]
  have hchar := findAgg_processTxs (toLower w) agg.address txs []
  rw [hfind0] at hchar
  simp only [findAgg, List.find?_nil] at hchar
  cases hfu : firstUsable txs agg.address with
  | none => rw [hfu] at hchar; simp at hchar
  | some tx0 =>
    rw [hfu] at hchar
    have hagg := Option.some.inj hchar
    have ha : agg.address = tx0.ContractAddress := by rw [hagg]
    have hn : agg.name = tx0.displayName := by rw [hagg]
    have hs : agg.symbol = tx0.displaySymbol := by rw [hagg]
    have hdec : agg.decimals = tx0.decimals := by rw [hagg]
    exact ⟨tx0, rfl, ha, hn, hs, by simp [hb, hdec]⟩



def selfTx : tokenTransaction :=
  { emptyTx with
    ContractAddress := "0xc0ffee", TokenName := "Tok", TokenSymbol := "TK",
    TokenQuantity := "5", From := "0xAbCd", To := "0xabcd" }

/-- C1, counterexample: `selfTx` is a self-transfer for target "0xABCD"
(its `to` and `from` both equal the target case-insensitively) with usable
quantity 5, yet the aggregation does NOT leave the balance unchanged: the
`to` branch of the switch wins and adds the quantity, so the token is
emitted with balance "5".  The claim would have the balance stay 0 and the
token be filtered out, giving an empty output list. -/
theorem C1_counterexample :
    toLower selfTx.To = toLower "0xABCD" ∧ toLower selfTx.From = toLower "0xABCD" ∧
    selfTx.quantity = some 5 ∧
    summarizeTokenBalances "0xABCD" [selfTx] =
      [{ Address := "0xc0ffee", Name := "Tok", Symbol := "TK", Balance := "5" }] := by
  decide

/-- C1, amended: a self-transfer record (both `to` and `from` equal the
target case-insensitively) with a usable quantity falls into the
first (`to`-match) branch of the mutually exclusive switch and ADDS the
quantity to the contract's running balance; the record is still consumed
for metadata purposes if it is the first record seen for its contract. -/
theorem C1_self_transfer_adds (w : String) (aggs : List tokenAggregate)
    (tx : tokenTransaction) (qty : Int) (hq : tx.quantity = some qty)
    (hto : toLower tx.To = toLower w) (hfrom : toLower tx.From = toLower w) :
    balanceOf (applyTx (toLower w) aggs tx) tx.ContractAddress =
      balanceOf aggs tx.ContractAddress + qty ∧
    (findAgg aggs tx.ContractAddress = none →
      (findAgg (applyTx (toLower w) aggs tx) tx.ContractAddress).map metaOf =
        some (tx.ContractAddress, tx.displayName, tx.displaySymbol, tx.decimals)) := by
  constructor
  · rw [balanceOf_applyTx]
    simp [txDelta, hq, hto]
  · intro hnone
    rw [findAgg_applyTx]
    simp [hq, hnone, applyDirection_meta, metaOf, newAggregate, applyDirection_address,
      applyDirection_name, applyDirection_symbol, applyDirection_decimals]

theorem C1_self_transfer_adds_witness :
    balanceOf (applyTx (toLower "0xABCD") [] selfTx) selfTx.ContractAddress =
      balanceOf [] selfTx.ContractAddress + 5 ∧
    (findAgg (applyTx (toLower "0xABCD") [] selfTx) selfTx.ContractAddress).map metaOf =
      some (selfTx.ContractAddress, selfTx.displayName, selfTx.displaySymbol, selfTx.decimals) :=
  ⟨(C1_self_transfer_adds "0xABCD" [] selfTx 5 (by decide) (by decide) (by decide)).1,
   (C1_self_transfer_adds "0xABCD" [] selfTx 5 (by decide) (by decide) (by decide)).2
     (by decide)⟩

/-- C2: for a record with a usable quantity, comparing `to` and `from`
case-insensitively against the target: `to` matches and `from` does not
adds the quantity to that contract's balance; `from` matches and `to` does
not subtracts it; neither matching leaves the balance unchanged. -/
theorem C2_directional_update (w : String) (aggs : List tokenAggregate)
    (tx : tokenTransaction) (qty : Int) (hq : tx.quantity = some qty) :
    (toLower tx.To = toLower w ∧ toLower tx.From ≠ toLower w →
      balanceOf (applyTx (toLower w) aggs tx) tx.ContractAddress =
        balanceOf aggs tx.ContractAddress + qty) ∧
    (toLower tx.From = toLower w ∧ toLower tx.To ≠ toLower w →
      balanceOf (applyTx (toLower w) aggs tx) tx.ContractAddress =
        balanceOf aggs tx.ContractAddress - qty) ∧
    (toLower tx.To ≠ toLower w ∧ toLower tx.From ≠ toLower w →
      balanceOf (applyTx (toLower w) aggs tx) tx.ContractAddress =
        balanceOf aggs tx.ContractAddress) := by
  refine ⟨?_, ?_, ?_⟩ <;> rintro ⟨h1, h2⟩ <;> rw [balanceOf_applyTx] <;>
    simp [txDelta, hq, h1, h2, Int.sub_eq_add_neg]

def c2tx : tokenTransaction :=
  { emptyTx with
    ContractAddress := "0xk1", TokenName := "K", TokenQuantity := "7",
    From := "0xcd", To := "0xAB" }

theorem C2_directional_update_witness :
    c2tx.quantity = some 7 ∧
    balanceOf (applyTx (toLower "0xAB") [] c2tx) c2tx.ContractAddress =
      balanceOf [] c2tx.ContractAddress + 7 :=
  ⟨by decide, (C2_directional_update "0xAB" [] c2tx 7 (by decide)).1 (by decide)⟩

/-- C4: every entry of the output list corresponds to a strictly non-zero
final aggregated balance for its contract; contracts netting to zero are
filtered out and never appear. -/
theorem C4_nonzero_output (w : String) (txs : List tokenTransaction)
    (tb : TokenBalance) (h : tb ∈ summarizeTokenBalances w txs) :
    balanceOf (processTxs (toLower w) [] txs) tb.Address ≠ 0 := by
  rcases mem_summarize_decomp w txs tb h with ⟨agg, hmem, hbal, rfl⟩
  have hnd := keys_nodup_processTxs (toLower w) txs [] (by simp)
  have hfind := findAgg_of_mem _ hnd agg hmem
  simpa [balanceOf, hfind] using hbal

def c4tx : tokenTransaction :=
  { emptyTx with
    ContractAddress := "0xaaaa", TokenName := "Coin", TokenQuantity := "7",
    To := "0xab" }

theorem C4_nonzero_output_witness :
    ({ Address := "0xaaaa", Name := "Coin", Symbol := "", Balance := "7" } : TokenBalance) ∈
      summarizeTokenBalances "0xAB" [c4tx] ∧
    balanceOf (processTxs (toLower "0xAB") [] [c4tx])
      ({ Address := "0xaaaa", Name := "Coin", Symbol := "", Balance := "7" } :
        TokenBalance).Address ≠ 0 :=
  ⟨by decide, C4_nonzero_output "0xAB" [c4tx] _ (by decide)⟩

/-- C5: every output entry's metadata (address, name, symbol) comes from
the first record with a usable quantity seen for its contract, and that
first record's decimals value is the one used for the final formatting;
subsequent records for the same contract only move the balance (records
whose quantity is unusable are skipped before the aggregate is even
created, so "first record seen" means the first one that survives the
quantity check). -/
theorem C5_first_writer_wins (w : String) (txs : List tokenTransaction)
    (tb : TokenBalance) (h : tb ∈ summarizeTokenBalances w txs) :
    ∃ tx0, firstUsable txs tb.Address = some tx0 ∧
      tb.Address = tx0.ContractAddress ∧ tb.Name = tx0.displayName ∧
      tb.Symbol = tx0.displaySymbol ∧
      tb.Balance = formatTokenBalance
        (some (balanceOf (processTxs (toLower w) [] txs) tb.Address)) tx0.decimals :=
  summarize_meta_decomp w txs tb h

def c5tx1 : tokenTransaction :=
  { emptyTx with
    ContractAddress := "0xmeta", TokenName := "FirstName", TokenSymbol := "F1",
    TokenDecimal := "2", TokenQuantity := "100", To := "0xab" }

def c5tx2 : tokenTransaction :=
  { emptyTx with
    ContractAddress := "0xmeta", TokenName := "SecondName", TokenSymbol := "F2",
    TokenDecimal := "5", TokenQuantity := "100", To := "0xab" }

theorem C5_first_writer_wins_witness :
    ({ Address := "0xmeta", Name := "FirstName", Symbol := "F1", Balance := "2" } :
        TokenBalance) ∈ summarizeTokenBalances "0xAB" [c5tx1, c5tx2] ∧
    ∃ tx0, firstUsable [c5tx1, c5tx2]
        ({ Address := "0xmeta", Name := "FirstName", Symbol := "F1", Balance := "2" } :
          TokenBalance).Address = some tx0 ∧
      ({ Address := "0xmeta", Name := "FirstName", Symbol := "F1", Balance := "2" } :
          TokenBalance).Address = tx0.ContractAddress ∧
      ({ Address := "0xmeta", Name := "FirstName", Symbol := "F1", Balance := "2" } :
          TokenBalance).Name = tx0.displayName ∧
      ({ Address := "0xmeta", Name := "FirstName", Symbol := "F1", Balance := "2" } :
          TokenBalance).Symbol = tx0.displaySymbol ∧
      ({ Address := "0xmeta", Name := "FirstName", Symbol := "F1", Balance := "2" } :
          TokenBalance).Balance = formatTokenBalance
        (some (balanceOf (processTxs (toLower "0xAB") [] [c5tx1, c5tx2])
          ({ Address := "0xmeta", Name := "FirstName", Symbol := "F1", Balance := "2" } :
            TokenBalance).Address)) tx0.decimals :=
  ⟨by decide, C5_first_writer_wins "0xAB" [c5tx1, c5tx2] _ (by decide)⟩

/-- C6: a record whose quantity is missing or unparseable is excluded from
aggregation: the result on any input list containing such a record is
exactly the result on the list with that record removed (in particular the
computation never fails because of it; it is a total function). -/
theorem C6_bad_quantity_excluded (w : String) (pre post : List tokenTransaction)
    (bad : tokenTransaction) (hbad : bad.quantity = none) :
    summarizeTokenBalances w (pre ++ bad :: post) =
      summarizeTokenBalances w (pre ++ post) := by
  have hproc : ∀ aggs, processTxs (toLower w) aggs (pre ++ bad :: post) =
      processTxs (toLower w) aggs (pre ++ post) := by
    intro aggs
    unfold processTxs
    rw [List.foldl_append, List.foldl_append, List.foldl_cons]
    congr 1
    unfold applyTx
    rw [hbad]
  by_cases hpp : pre ++ post = []
  · rcases List.append_eq_nil.mp hpp with ⟨rfl, rfl⟩
    simp only [List.nil_append]
    unfold summarizeTokenBalances
    rw [if_neg (by simp), if_pos rfl]
    simp [processTxs, applyTx, hbad]
  · have hbp : pre ++ bad :: post ≠ [] := by simp
    unfold summarizeTokenBalances
    rw [if_neg hbp, if_neg hpp]
    simp only
    rw [hproc]

def c6bad : tokenTransaction :=
  { emptyTx with
    ContractAddress := "0xdddd", TokenName := "Bad", To := "0xab" }

def c6good : tokenTransaction :=
  { emptyTx with
    ContractAddress := "0xeeee", TokenName := "Good", TokenQuantity := "3", To := "0xab" }

theorem C6_bad_quantity_excluded_witness :
    c6bad.quantity = none ∧
    summarizeTokenBalances "0xAB" ([c6good] ++ c6bad :: []) =
      summarizeTokenBalances "0xAB" ([c6good] ++ []) :=
  ⟨by decide, C6_bad_quantity_excluded "0xAB" [c6good] [] c6bad (by decide)⟩

def negTx : tokenTransaction :=
  { emptyTx with
    ContractAddress := "0xfeed", TokenName := "Neg", TokenQuantity := "-5",
    From := "0xbb", To := "0xAB" }

/-- C10: a quantity string with a leading minus sign parses successfully
(the record is not skipped), and the negative value flows into the
balance arithmetic: an incoming transfer of "-5" for the target leaves the
contract with balance -5, rendered "-5". -/
theorem C10_negative_quantity_flows :
    negTx.quantity = some (-5) ∧
    toLower negTx.To = toLower "0xAB" ∧ toLower negTx.From ≠ toLower "0xAB" ∧
    summarizeTokenBalances "0xAB" [negTx] =
      [{ Address := "0xfeed", Name := "Neg", Symbol := "", Balance := "-5" }] := by
  decide

def tieTx1 : tokenTransaction :=
  { emptyTx with
    ContractAddress := "0xaaa1", TokenName := "Tok", TokenQuantity := "1", To := "0xaa" }

def tieTx2 : tokenTransaction :=
  { emptyTx with
    ContractAddress := "0xbbb2", TokenName := "tok", TokenQuantity := "1", To := "0xaa" }

/-- C8, evaluation at the failing input: two distinct tokens whose display
names are equal case-insensitively ("Tok" and "tok").  The Go comparator
`nameLess` gives no order between them in either direction, so their
relative order is decided by the accumulator map's iteration order, which
Go randomizes per run, and `sort.Slice` is not stable; the code therefore
does not guarantee identical output across runs.  The model fixes
insertion order (first conjunct), which is only one of the orders the Go
code may produce. -/
theorem C8_tie_comparator_eval :
    (summarizeTokenBalances "0xAA" [tieTx1, tieTx2]).map (fun tb => tb.Name) =
      ["Tok", "tok"] ∧
    nameLess { Address := "0xaaa1", Name := "Tok", Symbol := "", Balance := "1" }
      { Address := "0xbbb2", Name := "tok", Symbol := "", Balance := "1" } = false ∧
    nameLess { Address := "0xbbb2", Name := "tok", Symbol := "", Balance := "1" }
      { Address := "0xaaa1", Name := "Tok", Symbol := "", Balance := "1" } = false := by
  decide

lemma displayName_nonempty (t : tokenTransaction) (h : t.ContractAddress ≠ "") :
    t.displayName ≠ "" := by
  unfold tokenTransaction.displayName
  split_ifs with h1 h2 h3
  · exact h1
  · exact h2
  · exact h3
  · exact h

def noNameTx : tokenTransaction :=
  { emptyTx with TokenQuantity := "5", To := "0xab" }

/-- C9, counterexample: a record with every textual field empty, including
the contract address, still aggregates (its quantity is usable), and the
emitted entry's display name is the empty string — so it is not true that
every aggregate has a non-empty display name.  The guarantee only holds
when the contract address (or some earlier fallback) is non-empty. -/
theorem C9_counterexample :
    summarizeTokenBalances "0xAB" [noNameTx] =
      [{ Address := "", Name := "", Symbol := "", Balance := "5" }] ∧
    ({ Address := "", Name := "", Symbol := "", Balance := "5" } : TokenBalance).Name = "" := by
  decide

/-- C9, amended: the display name is resolved in the order primary name
field, alternate-cased name field, token symbol (primary then alternate),
then the contract address itself; consequently every record with a
non-empty contract address has a non-empty display name, and every output
entry built from records with non-empty contract addresses has a
non-empty display name. -/
theorem C9_display_name_resolution (tx : tokenTransaction) :
    tx.displayName = (if tx.TokenName ≠ "" then tx.TokenName
      else if tx.TokenNameAlt ≠ "" then tx.TokenNameAlt
      else if tx.TokenSymbol ≠ "" then tx.TokenSymbol
      else if tx.TokenSymbolAlt ≠ "" then tx.TokenSymbolAlt
      else tx.ContractAddress) ∧
    (tx.ContractAddress ≠ "" → tx.displayName ≠ "") ∧
    (∀ (w : String) (txs : List tokenTransaction) (tb : TokenBalance),
      (∀ t ∈ txs, t.ContractAddress ≠ "") → tb ∈ summarizeTokenBalances w txs →
      tb.Name ≠ "") := by
  refine ⟨?_, displayName_nonempty tx, ?_⟩
  · by_cases h1 : tx.TokenName = "" <;> by_cases h2 : tx.TokenNameAlt = "" <;>
      by_cases h3 : tx.TokenSymbol = "" <;> by_cases h4 : tx.TokenSymbolAlt = "" <;>
      simp [tokenTransaction.displayName, tokenTransaction.displaySymbol, h1, h2, h3, h4]
  · intro w txs tb hall h
    rcases summarize_meta_decomp w txs tb h with ⟨tx0, hfu, -, hname, -, -⟩
    have htx0 : tx0 ∈ txs := List.mem_of_find?_eq_some hfu
    rw [hname]
    exact displayName_nonempty tx0 (hall tx0 htx0)

def symOnlyTx : tokenTransaction :=
  { emptyTx with ContractAddress := "0xsym", TokenSymbol := "SYM" }

theorem C9_display_name_resolution_witness :
    symOnlyTx.ContractAddress ≠ "" ∧ symOnlyTx.displayName ≠ "" :=
  ⟨by decide, (C9_display_name_resolution symOnlyTx).2.1 (by decide)⟩

lemma charListLt_asymm : ∀ x y : List Char, charListLt x y = true → charListLt y x = false
  | [], [] => by simp [charListLt]
  | [], _ :: _ => by intro _; simp [charListLt]
  | _ :: _, [] => by intro h; simp [charListLt] at h
  | a :: as, b :: bs => by
    intro h
    simp only [charListLt] at h ⊢
    by_cases h1 : a.toNat < b.toNat
    · rw [if_neg (by omega), if_pos h1]
    · by_cases h2 : b.toNat < a.toNat
      · simp [h1, h2] at h
      · rw [if_neg h2, if_neg h1]
        exact charListLt_asymm as bs (by rw [if_neg h1, if_neg h2] at h; exact h)

lemma charListLt_negtrans :
    ∀ x y z : List Char, charListLt x y = false → charListLt y z = false →
      charListLt x z = false
  | x, _, [] => by intro _ _; cases x <;> simp [charListLt]
  | _, [], _ :: _ => by intro _ h2; simp [charListLt] at h2
  | [], _ :: _, _ :: _ => by intro h1 _; simp [charListLt] at h1
  | a :: as, b :: bs, c :: cs => by
    intro h1 h2
    simp only [charListLt] at h1 h2 ⊢
    by_cases hab : a.toNat < b.toNat
    · simp [hab] at h1
    · by_cases hbc : b.toNat < c.toNat
      · simp [hbc] at h2
      · rw [if_neg hab] at h1
        rw [if_neg hbc] at h2
        by_cases hac : a.toNat < c.toNat
        · omega
        · rw [if_neg hac]
          by_cases hca : c.toNat < a.toNat
          · rw [if_pos hca]
          · rw [if_neg hca]
            by_cases hba : b.toNat < a.toNat
            · omega
            · by_cases hcb : c.toNat < b.toNat
              · omega
              · rw [if_neg hba] at h1
                rw [if_neg hcb] at h2
                exact charListLt_negtrans as bs cs h1 h2

lemma byName_total (a b : TokenBalance) : byName a b ∨ byName b a := by
  unfold byName nameLess strLt
  cases h : charListLt (toLower b.Name).toList (toLower a.Name).toList
  · left; rfl
  · right; exact charListLt_asymm _ _ h

instance : IsTotal TokenBalance byName := ⟨byName_total⟩

instance : IsTrans TokenBalance byName := by
  refine ⟨fun a b c h1 h2 => ?_⟩
  unfold byName nameLess strLt at *
  exact charListLt_negtrans _ _ _ h2 h1

def permTx1 : tokenTransaction :=
  { emptyTx with
    ContractAddress := "0xdead", TokenName := "Alpha", TokenQuantity := "1", To := "0xaa" }

def permTx2 : tokenTransaction :=
  { emptyTx with
    ContractAddress := "0xdead", TokenName := "Beta", TokenQuantity := "1", To := "0xaa" }

/-- C7, counterexample: permuting the input changes the final output.  Two
records for the same contract carry different names; the aggregate keeps
the metadata of whichever comes first, so the two orders emit entries
named "Alpha" and "Beta" respectively — the final output is NOT the same
for every permutation of the same input set. -/
theorem C7_counterexample :
    [permTx1, permTx2].Perm [permTx2, permTx1] ∧
    summarizeTokenBalances "0xAA" [permTx1, permTx2] ≠
      summarizeTokenBalances "0xAA" [permTx2, permTx1] :=
  ⟨List.Perm.swap permTx2 permTx1 [], by decide⟩

/-- C7, amended: the output list is always sorted (non-strictly) by
case-insensitive display name, and each contract's final numeric balance
is invariant under permutation of the input; the full output need not be
identical across permutations because first-writer-wins metadata depends
on input order. -/
theorem C7_sorted_and_balance_perm_invariant (w : String)
    (txs txs' : List tokenTransaction) (hperm : txs.Perm txs') :
    List.Pairwise byName (summarizeTokenBalances w txs) ∧
    ∀ c, balanceOf (processTxs (toLower w) [] txs) c =
      balanceOf (processTxs (toLower w) [] txs') c := by
  constructor
  · by_cases htxs : txs = []
    · simp [summarizeTokenBalances, htxs]
    · unfold summarizeTokenBalances
      rw [if_neg htxs]
      exact List.sorted_insertionSort byName _
  · intro c
    rw [balanceOf_processTxs, balanceOf_processTxs,
      (hperm.map (txDelta (toLower w) c)).sum_eq]

theorem C7_sorted_and_balance_perm_invariant_witness :
    List.Pairwise byName (summarizeTokenBalances "0xAA" [permTx1, permTx2]) ∧
    balanceOf (processTxs (toLower "0xAA") [] [permTx1, permTx2]) "0xdead" =
      balanceOf (processTxs (toLower "0xAA") [] [permTx2, permTx1]) "0xdead" :=
  ⟨(C7_sorted_and_balance_perm_invariant "0xAA" [permTx1, permTx2] [permTx2, permTx1]
      (List.Perm.swap permTx2 permTx1 [])).1,
   (C7_sorted_and_balance_perm_invariant "0xAA" [permTx1, permTx2] [permTx2, permTx1]
      (List.Perm.swap permTx2 permTx1 [])).2 "0xdead"⟩

lemma formatFixed_eq_fixedPointSpec (ds : List Char) (d : Nat) (hd : 0 < d) :
    formatFixed ds d = fixedPointSpec ds d := by
  rcases lt_trichotomy ds.length d with h | h | h
  · have hk : ds.length ≤ d := le_of_lt h
    simp only [formatFixed, fixedPointSpec, if_pos hk, if_pos h]
    rw [List.replicate_succ, List.cons_append]
    have hlen1 : ('0' :: (List.replicate (d - ds.length) '0' ++ ds)).length = d + 1 := by
      simp [List.length_replicate]; omega
    have hlen2 : (List.replicate (d - ds.length) '0' ++ ds).length = d := by
      simp [List.length_replicate]; omega
    rw [hlen1, hlen2]
    have h1 : d + 1 - d = 1 := by omega
    have h2 : d - d = 0 := by omega
    rw [h1, h2]
    simp
  · subst h
    have hk : ds.length ≤ ds.length := le_refl _
    simp only [formatFixed, fixedPointSpec, if_pos hk, if_neg (lt_irrefl ds.length)]
    rw [List.replicate_succ]
    have h2 : ds.length - ds.length = 0 := by omega
    rw [h2]
    simp
  · have hk : ¬ ds.length ≤ d := by omega
    have hk2 : ¬ ds.length < d := by omega
    simp only [formatFixed, fixedPointSpec, if_neg hk, if_neg hk2]

/-- C3: for decimals d > 0, the renderer splits the magnitude's digit
string into a fixed-point number with d fractional digits, left-padding
with zeros so the integer part is never empty, trimming trailing zero
fractional digits, and omitting the decimal point when the fraction trims
away (the sign is prepended separately); the three concrete examples of
the spec evaluate as stated. -/
theorem C3_fixed_point_rendering (m : Int) (dec : Int) (hd : 0 < dec) :
    formatTokenBalance (some m) dec =
      (if m < 0 then "-" else "") ++ fixedPointSpec (Nat.repr m.natAbs).toList dec.toNat ∧
    formatTokenBalance (some 1000000000000000000) 18 = "1" ∧
    formatTokenBalance (some 1234567890123456789) 18 = "1.234567890123456789" ∧
    formatTokenBalance (some 5) 3 = "0.005" := by
  refine ⟨?_, by decide, by decide, by decide⟩
  have hne : ¬ dec ≤ 0 := by omega
  have hpos : 0 < dec.toNat := by omega
  simp only [formatTokenBalance]
  rw [if_neg hne, formatFixed_eq_fixedPointSpec _ _ hpos]

theorem C3_fixed_point_rendering_witness :
    formatTokenBalance (some (-15)) 1 =
      (if (-15 : Int) < 0 then "-" else "") ++
        fixedPointSpec (Nat.repr (-15 : Int).natAbs).toList (1 : Int).toNat :=
  (C3_fixed_point_rendering (-15) 1 (by decide)).1

end WalletTracker
